import Mathlib

/-!
Shallow embedding of the text-statistics and boundary-location core of the
repository (src/src/stats.cpp and src/src/stri_search_other_locate.cpp).

Texts are modelled as lists of Unicode codepoints (`List Char`); an R
character-vector element is `Option (List Char)` with `none` for `NA_STRING`.
The ICU character-classification calls (`u_isUAlphabetic`, `u_isdigit`,
`u_ispunct`, `u_hasBinaryProperty(UCHAR_WHITE_SPACE)`) are external
collaborators and enter as an explicit parameter record `CharProps`;
`asciiProps` is a concrete instance that agrees with ICU on the ASCII range
and is used for concrete test vectors.

The byte-level lookahead `strncmp(cs+j, "egin", 4)` of stats.cpp is faithfully
rendered at codepoint level: the bytes sought are plain ASCII, and in valid
UTF-8 an ASCII byte can only be the encoding of the identical ASCII codepoint,
so "the next 4 bytes spell egin" holds iff the next 4 codepoints are
e, g, i, n, and `j += 4` then skips exactly those four codepoints.
-/

/-- Outcome of the external Unicode property lookups used by stats.cpp:
`u_isUAlphabetic`, `u_isdigit`, `u_ispunct` and the `UCHAR_WHITE_SPACE`
binary property. -/
structure CharProps where
  isLetter : Char → Bool
  isDigit : Char → Bool
  isPunct : Char → Bool
  isWhite : Char → Bool

/-- The closing curly brace codepoint (U+007D), tested by the `stEnvironment`
branch of `stri_stats_latex`. -/
def rbraceC : Char := Char.ofNat 125

/-- The opening curly brace codepoint (U+007B), used in test vectors. -/
def lbraceC : Char := Char.ofNat 123

/-- Unicode codepoints in the ASCII range whose general category is
punctuation (Pc, Pd, Ps, Pe, Po), i.e. exactly those ASCII codepoints for
which ICU's `u_ispunct` answers true. -/
def asciiPunctCodes : List Nat :=
  [33, 34, 35, 37, 38, 39, 40, 41, 42, 44, 45, 46, 47,
   58, 59, 63, 64, 91, 92, 93, 95, 123, 125]

/-- Concrete instance of the external Unicode property oracle, agreeing with
ICU's classifiers on the ASCII range (the only range exercised by the
concrete test vectors below). -/
def asciiProps : CharProps where
  isLetter := fun c => c.isAlpha
  isDigit := fun c => c.isDigit
  isPunct := fun c => asciiPunctCodes.contains c.toNat
  isWhite := fun c => [32, 9, 10, 11, 12, 13].contains c.toNat

/-- Hard failures of a batch call (spec taxonomy; `error(MSG__NEWLINE_FOUND)`,
`StriException(MSG__INCORRECT_MATCH_OPTION, ...)`, engine `U_FAILURE`, and the
`default:` branch of the LaTeX switch). -/
inductive StriError where
  | embeddedNewline
  | invalidArgument
  | engineFailure
  | internalError
deriving DecidableEq

/-- The four counters of `stri_stats_general` (enum gsNumLines,
gsNumLinesNonEmpty, gsNumChars, gsNumCharsNonWhite). -/
structure GeneralStats where
  lines : Nat
  linesNonEmpty : Nat
  chars : Nat
  charsNonWhite : Nat
deriving DecidableEq

def zeroGeneral : GeneralStats := ⟨0, 0, 0, 0⟩

/-- The six counters of `stri_stats_latex` (enum lsCharsWord, lsCharsCmdEnvir,
lsCharsWhite, lsWords, lsCmd, lsEnvir). -/
structure LatexStats where
  charsWord : Nat
  charsCmdEnvir : Nat
  charsWhite : Nat
  words : Nat
  cmds : Nat
  envirs : Nat
deriving DecidableEq

def zeroLatex : LatexStats := ⟨0, 0, 0, 0, 0, 0⟩

/-- Inner codepoint loop of `stri_stats_general` for one element: check for
U+000A, count every codepoint, count and flag non-white codepoints. -/
def generalScan (P : CharProps) : Bool → GeneralStats → List Char →
    Except StriError (GeneralStats × Bool)
  | anyNW, s, [] => .ok (s, anyNW)
  | anyNW, s, c :: rest =>
    if c = '\n' then .error .embeddedNewline
    else if P.isWhite c then
      generalScan P anyNW { s with chars := s.chars + 1 } rest
    else
      generalScan P true
        { s with chars := s.chars + 1, charsNonWhite := s.charsNonWhite + 1 } rest

/-- Element loop of `stri_stats_general`: NA elements are skipped
(`continue`), otherwise `Lines` is incremented, the element is scanned, and
`LinesNEmpty` is incremented when a non-white codepoint was seen. -/
def generalStatsFrom (P : CharProps) (s : GeneralStats) :
    List (Option (List Char)) → Except StriError GeneralStats
  | [] => .ok s
  | none :: ts => generalStatsFrom P s ts
  | some t :: ts =>
    match generalScan P false { s with lines := s.lines + 1 } t with
    | .error e => .error e
    | .ok (s', anyNW) =>
      generalStatsFrom P
        (if anyNW then { s' with linesNonEmpty := s'.linesNonEmpty + 1 } else s') ts

/-- Function `stri_stats_general`: one accumulator record for the whole call. -/
def stri_stats_general (P : CharProps) (texts : List (Option (List Char))) :
    Except StriError GeneralStats :=
  generalStatsFrom P zeroGeneral texts

/-- States of the `stri_stats_latex` tokenizer (enum State in stats.cpp). -/
inductive LxState where
  | standard
  | comment
  | controlSequence
  | controlSymbol
  | command
  | environment
deriving DecidableEq

/-- Word-closing decision taken by `stri_stats_latex` when a backslash is read
in the Standard state: if a lookahead codepoint exists and it is not
punctuation, or it is `~` or `^`, the current word is closed. -/
def backslashWordUpdate (P : CharProps) (word : Bool) (rest : List Char) : Bool :=
  match rest with
  | [] => word
  | next :: _ =>
    if !P.isPunct next || next = '~' || next = '^' then false else word

/-- Codepoint loop of `stri_stats_latex` for one element: the per-state
`switch` of stats.cpp.  The newline check precedes the state dispatch; the
`\begin` / `\end` byte lookahead (`strncmp`) and skip (`j += 4` / `j += 2`)
appear as `take`-comparison and `drop` on the remaining codepoints. -/
def latexScan (P : CharProps) : LxState → Bool → LatexStats → List Char →
    Except StriError LatexStats
  | _, _, s, [] => .ok s
  | st, word, s, c :: rest =>
    if c = '\n' then .error .embeddedNewline
    else
      match st with
      | .standard =>
        if c = '\\' then
          latexScan P .controlSequence (backslashWordUpdate P word rest)
            { s with charsCmdEnvir := s.charsCmdEnvir + 1 } rest
        else if c = '%' then
          latexScan P .comment word s rest
        else if P.isLetter c || P.isDigit c then
          if P.isLetter c && !word then
            latexScan P .standard true
              { s with words := s.words + 1, charsWord := s.charsWord + 1 } rest
          else
            latexScan P .standard word
              { s with charsWord := s.charsWord + 1 } rest
        else
          latexScan P .standard false
            { s with charsWhite := s.charsWhite + 1 } rest
      | .controlSequence =>
        if P.isLetter c then
          if c = 'b' ∧ rest.take 4 = ['e', 'g', 'i', 'n'] then
            latexScan P .environment word
              { s with envirs := s.envirs + 1,
                       charsCmdEnvir := s.charsCmdEnvir + 5 } (rest.drop 4)
          else if c = 'e' ∧ rest.take 2 = ['n', 'd'] then
            latexScan P .environment word
              { s with charsCmdEnvir := s.charsCmdEnvir + 3 } (rest.drop 2)
          else
            latexScan P .command word
              { s with cmds := s.cmds + 1,
                       charsCmdEnvir := s.charsCmdEnvir + 1 } rest
        else
          latexScan P .standard word
            { s with cmds := s.cmds + 1,
                     charsCmdEnvir := s.charsCmdEnvir + 1 } rest
      | .command =>
        if P.isLetter c then
          latexScan P .command word
            { s with charsCmdEnvir := s.charsCmdEnvir + 1 } rest
        else if c = '\\' then
          latexScan P .controlSequence word
            { s with charsCmdEnvir := s.charsCmdEnvir + 1 } rest
        else if c = '%' then
          latexScan P .comment word s rest
        else
          latexScan P .standard word
            { s with charsWhite := s.charsWhite + 1 } rest
      | .environment =>
        if c = rbraceC then
          latexScan P .standard word
            { s with charsCmdEnvir := s.charsCmdEnvir + 1 } rest
        else if c = '%' then
          latexScan P .comment word s rest
        else
          latexScan P .environment word
            { s with charsCmdEnvir := s.charsCmdEnvir + 1 } rest
      | .comment => latexScan P .comment word s rest
      | .controlSymbol => .error .internalError
termination_by _ _ _ l => l.length
decreasing_by
  all_goals simp_wf
  all_goals omega

/-- Element loop of `stri_stats_latex`: NA skipped, state and word flag reset
per element, one shared accumulator record. -/
def latexStatsFrom (P : CharProps) (s : LatexStats) :
    List (Option (List Char)) → Except StriError LatexStats
  | [] => .ok s
  | none :: ts => latexStatsFrom P s ts
  | some t :: ts =>
    match latexScan P .standard false s t with
    | .error e => .error e
    | .ok s' => latexStatsFrom P s' ts

/-- Function `stri_stats_latex`: one accumulator record for the whole call. -/
def stri_stats_latex (P : CharProps) (texts : List (Option (List Char))) :
    Except StriError LatexStats :=
  latexStatsFrom P zeroLatex texts

/-- Sequence of tokenizer states assumed by the `stri_stats_latex` scan of one
element, before each consumed codepoint (and the final state); the scan stops
where the code raises an error.  State transitions in stats.cpp depend only on
the current state, the codepoint, and the lookahead, never on the counters or
the word flag, so neither appears here. -/
def latexTrace (P : CharProps) : LxState → List Char → List LxState
  | st, [] => [st]
  | st, c :: rest =>
    if c = '\n' then [st]
    else
      st ::
      match st with
      | .standard =>
        if c = '\\' then latexTrace P .controlSequence rest
        else if c = '%' then latexTrace P .comment rest
        else latexTrace P .standard rest
      | .controlSequence =>
        if P.isLetter c then
          if c = 'b' ∧ rest.take 4 = ['e', 'g', 'i', 'n'] then
            latexTrace P .environment (rest.drop 4)
          else if c = 'e' ∧ rest.take 2 = ['n', 'd'] then
            latexTrace P .environment (rest.drop 2)
          else latexTrace P .command rest
        else latexTrace P .standard rest
      | .command =>
        if P.isLetter c then latexTrace P .command rest
        else if c = '\\' then latexTrace P .controlSequence rest
        else if c = '%' then latexTrace P .comment rest
        else latexTrace P .standard rest
      | .environment =>
        if c = rbraceC then latexTrace P .standard rest
        else if c = '%' then latexTrace P .comment rest
        else latexTrace P .environment rest
      | .comment => latexTrace P .comment rest
      | .controlSymbol => []
termination_by _ l => l.length
decreasing_by
  all_goals simp_wf
  all_goals omega

/-- The four accepted boundary kinds (the `boundary_opts` table of
stri_search_other_locate.cpp, in table order). -/
inductive BoundaryKind where
  | character
  | lineBreak
  | sentence
  | word
deriving DecidableEq

/-- Modelled from the spec: `stri__match_arg` is not part of the two source
files; per §6 of the spec the accepted BoundaryKind labels are exactly
`"character"`, `"line-break"`, `"sentence"`, `"word"`, and any other label
fails with `InvalidArgument`. -/
def stri__match_arg (lab : String) : Option BoundaryKind :=
  if lab = "character" then some .character
  else if lab = "line-break" then some .lineBreak
  else if lab = "sentence" then some .sentence
  else if lab = "word" then some .word
  else none

/-- Modelled from the spec: `stri__recycling_rule` is not part of the two
source files; per §6/§8 of the spec the output length of a two-vector batch
is the recycling of the input lengths (the longer length; zero when either
input is empty). -/
def stri__recycling_rule (a b : Nat) : Nat :=
  if a = 0 ∨ b = 0 then 0 else max a b

/-- Cyclic indexing of a recycled vector: element `i` of the batch reads
position `i mod length` of the underlying vector. -/
def getCyc (xs : List (Option α)) (i : Nat) : Option α :=
  xs.getD (i % xs.length) none

/-- The external boundary-analysis capability wrapped by the Segmenter
(ICU `BreakIterator`): after binding a text, `first` is the position of the
first boundary and `nexts` the positions returned by successive `next()`
calls until `DONE`, each paired with its rule status (`getRuleStatus`).
Positions are in the engine's internal indexing unit (byte offsets of the
UTF-8 `UText`); results are a deterministic function of the boundary kind
and the bound text. -/
structure BreakEngine where
  first : BoundaryKind → List Char → Nat
  nexts : BoundaryKind → List Char → List (Nat × Int)

/-- ICU `UBRK_WORD_NONE` rule-status tag. -/
def UBRK_WORD_NONE : Int := 0

/-- Interval-building loop of `stri_locate_boundaries`: every pair of
consecutive boundaries (`last_match`, `match`) becomes an interval; rule
statuses are ignored. -/
def allChain (last : Nat) : List (Nat × Int) → List (Nat × Nat)
  | [] => []
  | (m, _) :: rest => (last, m) :: allChain m rest

/-- Interval-building loop of `stri_locate_words`: a consecutive-boundary
pair is kept only when its rule status differs from `UBRK_WORD_NONE`;
`last_match` advances regardless. -/
def wordChain (last : Nat) : List (Nat × Int) → List (Nat × Nat)
  | [] => []
  | (m, st) :: rest =>
    if st ≠ UBRK_WORD_NONE then (last, m) :: wordChain m rest
    else wordChain m rest

/-- Candidate intervals with their rule classifications: the chain of all
consecutive-boundary pairs, each carrying the status of its closing
boundary. -/
def chainPairs (last : Nat) : List (Nat × Int) → List ((Nat × Nat) × Int)
  | [] => []
  | (m, st) :: rest => ((last, m), st) :: chainPairs m rest

/-- UTF-8 encoded length of a codepoint (the amount `U8_NEXT` advances). -/
def utf8Len (c : Char) : Nat :=
  if c.toNat < 128 then 1
  else if c.toNat < 2048 then 2
  else if c.toNat < 65536 then 3 else 4

/-- Byte offsets at which the codepoints of a text start. -/
def cpByteOffsets : List Char → List Nat
  | [] => []
  | c :: rest => 0 :: (cpByteOffsets rest).map (· + utf8Len c)

/-- Modelled from the spec: `StriContainerUTF8_indexable::UTF8_to_UChar32_index`
is not part of the two source files; per §4.5 of the spec it rewrites an
offset in the engine's internal indexing unit to a 1-based codepoint count,
an interval end denoting the codepoint immediately following the match. -/
def toCodepointIndex (t : List Char) (b : Nat) : Nat :=
  1 + (cpByteOffsets t).countP (fun o => decide (o < b))

/-- The coordinate adjustment applied to one element's interval matrix
(columns are starts and ends; both are rewritten by the same map). -/
def adjustIvs (t : List Char) (ivs : List (Nat × Nat)) : List (Nat × Nat) :=
  ivs.map (fun p => (toCodepointIndex t p.1, toCodepointIndex t p.2))

/-- One element's answer in a locate batch: `none` is the 1×2 NA sentinel
matrix (`stri__matrix_NA_INTEGER(1, 2)`), `some ivs` a matrix of intervals. -/
abbrev LocateRow := Option (List (Nat × Nat))

/-- Element loop of `stri_locate_boundaries`: NA text, NA boundary label or
zero-length text short-circuit to the NA sentinel; an unrecognized label
aborts the whole call; otherwise the BreakIterator handle is reused when the
previous element had the same kind (else closed and reopened), the text is
bound, and the chained intervals are coordinate-adjusted.  `last` is the
kind held by the currently open handle (`last_boundary`/`briter`). -/
def locBoundLoop (E : BreakEngine) (last : Option BoundaryKind) :
    List (Option (List Char) × Option String) →
    Except StriError (List LocateRow)
  | [] => .ok []
  | (t?, lab?) :: rest =>
    match t?, lab? with
    | some t, some lab =>
      if t = [] then (locBoundLoop E last rest).map (fun rs => none :: rs)
      else
        match stri__match_arg lab with
        | none => .error .invalidArgument
        | some k =>
          let handle := if last = some k then last else some k
          let ivs := adjustIvs t
            (allChain (E.first (handle.getD k) t) (E.nexts (handle.getD k) t))
          (locBoundLoop E handle rest).map (fun rs => some ivs :: rs)
    | _, _ => (locBoundLoop E last rest).map (fun rs => none :: rs)

/-- The element sequence a batch call walks: recycled text/label pairs in
index order. -/
def recycledElems (texts : List (Option (List Char)))
    (labels : List (Option String)) :
    List (Option (List Char) × Option String) :=
  (List.range (stri__recycling_rule texts.length labels.length)).map
    (fun i => (getCyc texts i, getCyc labels i))

/-- Function `stri_locate_boundaries`: recycle the two input vectors, then run the
element loop with no BreakIterator open initially. -/
def stri_locate_boundaries (E : BreakEngine) (texts : List (Option (List Char)))
    (labels : List (Option String)) : Except StriError (List LocateRow) :=
  locBoundLoop E none (recycledElems texts labels)

/-- Function `stri_locate_words`: one word-kind BreakIterator for the whole call; per
element, NA short-circuits to the NA sentinel, otherwise intervals whose rule
status is `UBRK_WORD_NONE` are dropped while building the chain, and an
element left with no interval yields the NA sentinel, not an empty matrix. -/
def stri_locate_words (E : BreakEngine) (texts : List (Option (List Char))) :
    List LocateRow :=
  texts.map (fun t? =>
    match t? with
    | none => none
    | some t =>
      let occ := wordChain (E.first .word t) (E.nexts .word t)
      if occ = [] then none else some (adjustIvs t occ))

/-- A concrete engine instance used for closed test vectors: boundaries after
every codepoint (at cumulative byte offsets), each with rule status 1. -/
def demoBreaks (acc : Nat) : List Char → List (Nat × Int)
  | [] => []
  | c :: rest => (acc + utf8Len c, 1) :: demoBreaks (acc + utf8Len c) rest

/-- A concrete `BreakEngine` for closed test vectors. -/
def demoEngine : BreakEngine where
  first := fun _ _ => 0
  nexts := fun _ t => demoBreaks 0 t

/-! ## Concrete test vectors -/

/-- The spec example text `"ab\ncd"`. -/
def abncd : List Char := ['a', 'b', '\n', 'c', 'd']

/-- The spec example text `"K\"ahler"`. -/
def kahlerText : List Char := ['K', '\\', '"', 'a', 'h', 'l', 'e', 'r']

/-- The spec example text `"\begin{equation}x\end{equation}"`. -/
def beginEqnText : List Char :=
  ['\\', 'b', 'e', 'g', 'i', 'n', lbraceC,
   'e', 'q', 'u', 'a', 't', 'i', 'o', 'n', rbraceC, 'x',
   '\\', 'e', 'n', 'd', lbraceC,
   'e', 'q', 'u', 'a', 't', 'i', 'o', 'n', rbraceC]

/-- The text `"\aegin"`: a backslash followed by a letter other than `b`
whose next four codepoints spell `egin`. -/
def aeginText : List Char := ['\\', 'a', 'e', 'g', 'i', 'n']

/-- The row `stri_locate_boundaries` computes for one element taken in
isolation; `none` covers the NA/zero-length short circuit and (vacuously) the
invalid-label case, in which the whole call errors instead. -/
def locBoundElem (E : BreakEngine) (x : Option (List Char) × Option String) :
    LocateRow :=
  match x with
  | (some t, some lab) =>
    if t = [] then none
    else
      match stri__match_arg lab with
      | none => none
      | some k => some (adjustIvs t (allChain (E.first k t) (E.nexts k t)))
  | _ => none

/-- An element on which `stri_locate_boundaries` aborts: non-NA, non-empty
text paired with an unrecognized boundary label. -/
def badElem (x : Option (List Char) × Option String) : Bool :=
  match x with
  | (some t, some lab) => !t.isEmpty && (stri__match_arg lab).isNone
  | _ => false

/-! ## Helper lemmas: newline detection in the stats scanners -/

lemma mem_drop_of_take (rest : List Char) (n : Nat) (l0 : List Char)
    (ht : rest.take n = l0) (hn : '\n' ∉ l0) (hm : '\n' ∈ rest) :
    '\n' ∈ rest.drop n := by
  have h2 := List.take_append_drop n rest
  rw [← h2] at hm
  rcases List.mem_append.mp hm with h | h
  · rw [ht] at h; exact absurd h hn
  · exact h

lemma latexScan_newline (P : CharProps) :
    ∀ (st : LxState) (w : Bool) (s : LatexStats) (l : List Char),
    st ≠ .controlSymbol → '\n' ∈ l →
    latexScan P st w s l = .error .embeddedNewline := by
  intro st w s l
  induction st, w, s, l using latexScan.induct P
  case case1 => intro _ hm; exact absurd hm (List.not_mem_nil _)
  case case2 => intro _ _; rw [latexScan.eq_def]; simp
  case case20 => intro hst _; exact absurd rfl hst
  case case8 hc _ hb ih =>
    intro _ hm
    rcases List.mem_cons.mp hm with h1 | h1
    · exact absurd h1.symm hc
    · have hd := mem_drop_of_take _ 4 _ hb.2 (by decide) h1
      simp only [latexScan]
      simp_all
  case case9 hc _ _ he ih =>
    intro _ hm
    rcases List.mem_cons.mp hm with h1 | h1
    · exact absurd h1.symm hc
    · have hd := mem_drop_of_take _ 2 _ he.2 (by decide) h1
      simp only [latexScan]
      simp_all
  case case10 hc hl hnb hne ih =>
    intro _ hm
    rcases List.mem_cons.mp hm with h1 | h1
    · exact absurd h1.symm hc
    · simp only [latexScan]
      rw [if_neg hnb, if_neg hne]
      simp_all
  all_goals intro hst hm
  all_goals rcases List.mem_cons.mp hm with h1 | h1
  all_goals try first
    | exact absurd h1 (by decide)
    | exact absurd h1.symm (by assumption)
  all_goals simp only [latexScan]
  all_goals simp_all

lemma not_mem_drop_of_not_mem {c : Char} {rest : List Char} (n : Nat)
    (h : c ∉ rest) : c ∉ rest.drop n :=
  fun hx => h (List.drop_subset n rest hx)

lemma latexScan_ok (P : CharProps) :
    ∀ (st : LxState) (w : Bool) (s : LatexStats) (l : List Char),
    st ≠ .controlSymbol → '\n' ∉ l →
    ∃ s', latexScan P st w s l = .ok s' := by
  intro st w s l
  induction st, w, s, l using latexScan.induct P
  case case1 => intro _ _; exact ⟨_, by rw [latexScan.eq_def]⟩
  case case2 => intro _ hm; simp at hm
  case case20 => intro hst _; exact absurd rfl hst
  case case8 hc _ hb ih =>
    intro _ hm
    rw [List.mem_cons] at hm
    push_neg at hm
    obtain ⟨s', hs⟩ := ih (by simp) (not_mem_drop_of_not_mem 4 hm.2)
    refine ⟨s', ?_⟩
    simp only [latexScan]
    simp_all
  case case9 hc _ _ he ih =>
    intro _ hm
    rw [List.mem_cons] at hm
    push_neg at hm
    obtain ⟨s', hs⟩ := ih (by simp) (not_mem_drop_of_not_mem 2 hm.2)
    refine ⟨s', ?_⟩
    simp only [latexScan]
    simp_all
  case case10 hc hl hnb hne ih =>
    intro _ hm
    rw [List.mem_cons] at hm
    push_neg at hm
    obtain ⟨s', hs⟩ := ih (by simp) hm.2
    refine ⟨s', ?_⟩
    simp only [latexScan]
    rw [if_neg hnb, if_neg hne]
    simp_all
  all_goals intro hst hm
  all_goals rw [List.mem_cons] at hm
  all_goals push_neg at hm
  all_goals obtain ⟨s', hs⟩ := (by apply_assumption <;> simp_all :
    ∃ s', _ = Except.ok s')
  all_goals refine ⟨s', ?_⟩
  all_goals simp only [latexScan]
  all_goals simp_all

lemma generalScan_newline (P : CharProps) :
    ∀ (l : List Char) (a : Bool) (s : GeneralStats), '\n' ∈ l →
    generalScan P a s l = .error .embeddedNewline := by
  intro l
  induction l with
  | nil => intro a s hm; exact absurd hm (List.not_mem_nil _)
  | cons c rest ih =>
    intro a s hm
    rcases List.mem_cons.mp hm with h1 | h1
    · subst h1; simp [generalScan]
    · by_cases hc : c = '\n'
      · subst hc; simp [generalScan]
      · simp only [generalScan, if_neg hc]
        split <;> exact ih _ _ h1

lemma generalScan_ok (P : CharProps) :
    ∀ (l : List Char) (a : Bool) (s : GeneralStats), '\n' ∉ l →
    ∃ r, generalScan P a s l = .ok r := by
  intro l
  induction l with
  | nil => intro a s _; exact ⟨_, rfl⟩
  | cons c rest ih =>
    intro a s hm
    rw [List.mem_cons] at hm
    push_neg at hm
    have hc : ¬c = '\n' := fun h => hm.1 h.symm
    obtain ⟨r, hr⟩ := ih a { s with chars := s.chars + 1 } hm.2
    obtain ⟨r2, hr2⟩ := ih true
      { s with chars := s.chars + 1, charsNonWhite := s.charsNonWhite + 1 } hm.2
    by_cases hw : P.isWhite c
    · exact ⟨r, by simp only [generalScan, if_neg hc, if_pos hw]; exact hr⟩
    · exact ⟨r2, by simp only [generalScan, if_neg hc, if_neg hw]; exact hr2⟩

lemma generalStatsFrom_newline (P : CharProps) :
    ∀ (ts : List (Option (List Char))) (s : GeneralStats),
    (∃ t, some t ∈ ts ∧ '\n' ∈ t) →
    generalStatsFrom P s ts = .error .embeddedNewline := by
  intro ts
  induction ts with
  | nil => intro s ⟨t, hmem, _⟩; exact absurd hmem (List.not_mem_nil _)
  | cons x rest ih =>
    intro s ⟨t, hmem, hnl⟩
    rcases List.mem_cons.mp hmem with h1 | h1
    · subst h1
      simp only [generalStatsFrom]
      rw [generalScan_newline P t false _ hnl]
    · match x with
      | none => exact ih s ⟨t, h1, hnl⟩
      | some t0 =>
        by_cases h0 : '\n' ∈ t0
        · simp only [generalStatsFrom]
          rw [generalScan_newline P t0 false _ h0]
        · obtain ⟨r, hr⟩ := generalScan_ok P t0 false
            { s with lines := s.lines + 1 } h0
          simp only [generalStatsFrom]
          rw [hr]
          exact ih _ ⟨t, h1, hnl⟩

lemma latexStatsFrom_newline (P : CharProps) :
    ∀ (ts : List (Option (List Char))) (s : LatexStats),
    (∃ t, some t ∈ ts ∧ '\n' ∈ t) →
    latexStatsFrom P s ts = .error .embeddedNewline := by
  intro ts
  induction ts with
  | nil => intro s ⟨t, hmem, _⟩; exact absurd hmem (List.not_mem_nil _)
  | cons x rest ih =>
    intro s ⟨t, hmem, hnl⟩
    rcases List.mem_cons.mp hmem with h1 | h1
    · subst h1
      simp only [latexStatsFrom]
      rw [latexScan_newline P .standard false s t (by simp) hnl]
    · match x with
      | none => exact ih s ⟨t, h1, hnl⟩
      | some t0 =>
        by_cases h0 : '\n' ∈ t0
        · simp only [latexStatsFrom]
          rw [latexScan_newline P .standard false s t0 (by simp) h0]
        · obtain ⟨s1, hs1⟩ := latexScan_ok P .standard false s t0 (by simp) h0
          simp only [latexStatsFrom]
          rw [hs1]
          exact ih _ ⟨t, h1, hnl⟩

/-- Claim C1 (amended): a line feed in any non-NA element makes the whole
`stri_stats_general` and `stri_stats_latex` calls fail with the embedded
newline error, with no partial result; the boundary-locating calls perform no
such check (see the counterexample). -/
theorem c1_embedded_newline_aborts_stats (P : CharProps)
    (texts : List (Option (List Char)))
    (h : ∃ t, some t ∈ texts ∧ '\n' ∈ t) :
    stri_stats_general P texts = .error .embeddedNewline ∧
    stri_stats_latex P texts = .error .embeddedNewline :=
  ⟨generalStatsFrom_newline P texts zeroGeneral h,
   latexStatsFrom_newline P texts zeroLatex h⟩

/-- Claim C1, witness for the amended theorem at the spec's example text. -/
theorem c1_embedded_newline_aborts_stats_witness :
    (∃ t, some t ∈ [some abncd] ∧ '\n' ∈ t) ∧
    (stri_stats_general asciiProps [some abncd] = .error .embeddedNewline ∧
     stri_stats_latex asciiProps [some abncd] = .error .embeddedNewline) :=
  ⟨⟨abncd, by simp, by decide⟩,
   c1_embedded_newline_aborts_stats asciiProps [some abncd]
     ⟨abncd, by simp, by decide⟩⟩

/-- Claim C1, counterexample: the boundary-locating calls succeed on the text
`"ab\ncd"` containing U+000A — they raise no `EmbeddedNewlineError`. -/
theorem c1_boundary_calls_ignore_newline :
    stri_locate_boundaries demoEngine [some abncd] [some "character"] =
      .ok [some [(1, 2), (2, 3), (3, 4), (4, 5), (5, 6)]] ∧
    stri_locate_words demoEngine [some abncd] =
      [some [(1, 2), (2, 3), (3, 4), (4, 5), (5, 6)]] := by
  constructor <;> rfl

/-- Claim C2 (amended): in the ControlSequence state the letter `b` followed
by codepoints `egin` increments Environments, adds 5 to CharsCmdEnvir, skips
the lookahead and enters Environment; the letter `e` followed by `nd` adds 3,
skips, enters Environment, and leaves Environments unchanged; the spec's
example yields Environments = 1. -/
theorem c2_begin_end_transitions :
    (∀ (P : CharProps) (w : Bool) (s : LatexStats) (rest : List Char),
      P.isLetter 'b' = true → rest.take 4 = ['e', 'g', 'i', 'n'] →
      latexScan P .controlSequence w s ('b' :: rest) =
        latexScan P .environment w
          { s with envirs := s.envirs + 1, charsCmdEnvir := s.charsCmdEnvir + 5 }
          (rest.drop 4)) ∧
    (∀ (P : CharProps) (w : Bool) (s : LatexStats) (rest : List Char),
      P.isLetter 'e' = true → rest.take 2 = ['n', 'd'] →
      latexScan P .controlSequence w s ('e' :: rest) =
        latexScan P .environment w
          { s with charsCmdEnvir := s.charsCmdEnvir + 3 } (rest.drop 2)) ∧
    stri_stats_latex asciiProps [some beginEqnText] = .ok ⟨1, 30, 0, 1, 0, 1⟩ := by
  refine ⟨?_, ?_, ?_⟩
  · intro P w s rest hb ht
    conv_lhs => rw [latexScan.eq_def]
    simp [hb, ht]
  · intro P w s rest he ht
    conv_lhs => rw [latexScan.eq_def]
    simp [he, ht]
  · simp [stri_stats_latex, latexStatsFrom, latexScan, backslashWordUpdate,
      asciiProps, asciiPunctCodes, zeroLatex, beginEqnText, lbraceC, rbraceC]

/-- Claim C2, witness at a concrete instance of the amended transitions. -/
theorem c2_begin_end_transitions_witness :
    (asciiProps.isLetter 'b' = true ∧
     (['e', 'g', 'i', 'n'] : List Char).take 4 = ['e', 'g', 'i', 'n']) ∧
    latexScan asciiProps .controlSequence false zeroLatex
        ('b' :: ['e', 'g', 'i', 'n']) =
      latexScan asciiProps .environment false
        { zeroLatex with envirs := 1, charsCmdEnvir := 5 }
        (['e', 'g', 'i', 'n'].drop 4) :=
  ⟨⟨by decide, by decide⟩,
   c2_begin_end_transitions.1 asciiProps false zeroLatex ['e', 'g', 'i', 'n']
     (by decide) (by decide)⟩

/-- Claim C2, counterexample: `"\aegin"` has a letter (`a`) whose following
four codepoints spell `egin`, yet Environments stays 0, a Command is counted,
and the Environment state is never entered. -/
theorem c2_nonb_letter_before_egin_is_command :
    stri_stats_latex asciiProps [some aeginText] = .ok ⟨0, 6, 0, 0, 1, 0⟩ ∧
    asciiProps.isLetter 'a' = true ∧
    aeginText = ['\\', 'a', 'e', 'g', 'i', 'n'] ∧
    LxState.environment ∉ latexTrace asciiProps .standard aeginText := by
  refine ⟨?_, by decide, by decide, ?_⟩
  · simp [stri_stats_latex, latexStatsFrom, latexScan, backslashWordUpdate,
      asciiProps, asciiPunctCodes, zeroLatex, aeginText]
  · simp [latexTrace, asciiProps, aeginText]

/-- Claim C7: on a backslash in the Standard state, an open word is closed
exactly when a lookahead codepoint exists and is either not punctuation or is
`~` or `^`; the scan transition adds 1 to CharsCmdEnvir and enters
ControlSequence; consequently `"K\"ahler"` counts as one word. -/
theorem c7_backslash_word_closing :
    (∀ (P : CharProps) (rest : List Char),
      backslashWordUpdate P true rest = false ↔
        ∃ next, rest.head? = some next ∧
          (P.isPunct next = false ∨ next = '~' ∨ next = '^')) ∧
    (∀ (P : CharProps) (w : Bool) (s : LatexStats) (rest : List Char),
      latexScan P .standard w s ('\\' :: rest) =
        latexScan P .controlSequence (backslashWordUpdate P w rest)
          { s with charsCmdEnvir := s.charsCmdEnvir + 1 } rest) ∧
    stri_stats_latex asciiProps [some kahlerText] = .ok ⟨6, 2, 0, 1, 1, 0⟩ := by
  refine ⟨?_, ?_, ?_⟩
  · intro P rest
    cases rest with
    | nil => simp [backslashWordUpdate]
    | cons next r =>
      cases hp : P.isPunct next <;>
        by_cases h1 : next = '~' <;>
        by_cases h2 : next = '^' <;>
        simp_all [backslashWordUpdate]
  · intro P w s rest
    conv_lhs => rw [latexScan.eq_def]
    simp
  · simp [stri_stats_latex, latexStatsFrom, latexScan, backslashWordUpdate,
      asciiProps, asciiPunctCodes, zeroLatex, kahlerText]

/-! ## Helper lemmas: the tokenizer state trace -/

lemma latexTrace_no_controlSymbol (P : CharProps) :
    ∀ (st : LxState) (l : List Char), st ≠ .controlSymbol →
    LxState.controlSymbol ∉ latexTrace P st l := by
  intro st l
  induction st, l using latexTrace.induct P
  case case1 => intro hst; rw [latexTrace.eq_def]; simp; exact fun h => hst h.symm
  case case2 =>
    intro hst; rw [latexTrace.eq_def]; simp_all
    exact fun h => hst h.symm
  case case3 hc ih1 ih2 ih3 ih4 ih5 ih6 ih7 =>
    intro hst
    rw [latexTrace.eq_def]
    simp only [if_neg hc, List.mem_cons, not_or]
    rename_i st c rest
    refine ⟨fun h => hst h.symm, ?_⟩
    cases st
    all_goals try exact absurd rfl hst
    all_goals repeat' split
    all_goals simp_all

/-- Claim C9, counterexample: there is no input on which the scan, started in
the Standard state as `stri_stats_latex` starts it, ever enters the
ControlSymbol state — the state is declared but unreachable. -/
theorem c9_controlSymbol_never_entered :
    ¬ ∃ (P : CharProps) (l : List Char),
      LxState.controlSymbol ∈ latexTrace P .standard l := by
  rintro ⟨P, l, h⟩
  exact latexTrace_no_controlSymbol P .standard l (by simp) h

/-- Claim C9 (amended): the ControlSymbol state is declared in the state enum
but never entered by any scan started in the Standard state; a backslash
followed by a non-letter (a control symbol) is handled entirely inside the
ControlSequence state, which counts a command and returns to Standard. -/
theorem c9_controlSymbol_unreachable :
    ∀ (P : CharProps) (l : List Char),
      LxState.controlSymbol ∉ latexTrace P .standard l ∧
      latexTrace P .standard ('\\' :: l) =
        .standard :: latexTrace P .controlSequence l := by
  intro P l
  constructor
  · exact latexTrace_no_controlSymbol P .standard l (by simp)
  · rw [latexTrace.eq_def]
    simp

/-! ## Helper lemmas: accumulation across the input collection -/

lemma generalStatsFrom_append (P : CharProps) :
    ∀ (ts us : List (Option (List Char))) (s : GeneralStats),
    generalStatsFrom P s (ts ++ us) =
      (generalStatsFrom P s ts).bind (fun s1 => generalStatsFrom P s1 us) := by
  intro ts
  induction ts with
  | nil => intro us s; simp [generalStatsFrom, Except.bind]
  | cons x rest ih =>
    intro us s
    match x with
    | none => simpa [generalStatsFrom] using ih us s
    | some t =>
      simp only [List.cons_append, generalStatsFrom]
      cases generalScan P false { s with lines := s.lines + 1 } t with
      | error e => rfl
      | ok r => exact ih us _

lemma latexStatsFrom_append (P : CharProps) :
    ∀ (ts us : List (Option (List Char))) (s : LatexStats),
    latexStatsFrom P s (ts ++ us) =
      (latexStatsFrom P s ts).bind (fun s1 => latexStatsFrom P s1 us) := by
  intro ts
  induction ts with
  | nil => intro us s; simp [latexStatsFrom, Except.bind]
  | cons x rest ih =>
    intro us s
    match x with
    | none => simpa [latexStatsFrom] using ih us s
    | some t =>
      simp only [List.cons_append, latexStatsFrom]
      cases latexScan P .standard false s t with
      | error e => rfl
      | ok s1 => exact ih us s1

lemma generalStatsFrom_filter (P : CharProps) :
    ∀ (ts : List (Option (List Char))) (s : GeneralStats),
    generalStatsFrom P s (ts.filter (fun t => t.isSome)) =
      generalStatsFrom P s ts := by
  intro ts
  induction ts with
  | nil => intro s; rfl
  | cons x rest ih =>
    intro s
    match x with
    | none => simpa [List.filter, generalStatsFrom] using ih s
    | some t =>
      simp only [List.filter, Option.isSome, generalStatsFrom]
      cases generalScan P false { s with lines := s.lines + 1 } t with
      | error e => rfl
      | ok r => exact ih _

lemma latexStatsFrom_filter (P : CharProps) :
    ∀ (ts : List (Option (List Char))) (s : LatexStats),
    latexStatsFrom P s (ts.filter (fun t => t.isSome)) =
      latexStatsFrom P s ts := by
  intro ts
  induction ts with
  | nil => intro s; rfl
  | cons x rest ih =>
    intro s
    match x with
    | none => simpa [List.filter, latexStatsFrom] using ih s
    | some t =>
      simp only [List.filter, Option.isSome, latexStatsFrom]
      cases latexScan P .standard false s t with
      | error e => rfl
      | ok s1 => exact ih s1

lemma generalStatsFrom_replicate_none (P : CharProps) :
    ∀ (n : Nat) (s : GeneralStats),
    generalStatsFrom P s (List.replicate n none) = .ok s := by
  intro n
  induction n with
  | zero => intro s; rfl
  | succ m ih => intro s; simpa [List.replicate, generalStatsFrom] using ih s

lemma latexStatsFrom_replicate_none (P : CharProps) :
    ∀ (n : Nat) (s : LatexStats),
    latexStatsFrom P s (List.replicate n none) = .ok s := by
  intro n
  induction n with
  | zero => intro s; rfl
  | succ m ih => intro s; simpa [List.replicate, latexStatsFrom] using ih s

/-- Claim C6: both stats functions fold the whole input collection through a
single accumulator (splitting the input splits the fold sequentially); NA
elements are skipped, contributing nothing (filtering them away changes
nothing); an all-NA input yields the all-zero record. -/
theorem c6_single_accumulator_na_skipped :
    (∀ (P : CharProps) (ts us : List (Option (List Char))) (s : GeneralStats),
      generalStatsFrom P s (ts ++ us) =
        (generalStatsFrom P s ts).bind (fun s1 => generalStatsFrom P s1 us)) ∧
    (∀ (P : CharProps) (ts us : List (Option (List Char))) (s : LatexStats),
      latexStatsFrom P s (ts ++ us) =
        (latexStatsFrom P s ts).bind (fun s1 => latexStatsFrom P s1 us)) ∧
    (∀ (P : CharProps) (ts : List (Option (List Char))),
      stri_stats_general P (ts.filter (fun t => t.isSome)) =
        stri_stats_general P ts ∧
      stri_stats_latex P (ts.filter (fun t => t.isSome)) =
        stri_stats_latex P ts) ∧
    (∀ (P : CharProps) (n : Nat),
      stri_stats_general P (List.replicate n none) = .ok zeroGeneral ∧
      stri_stats_latex P (List.replicate n none) = .ok zeroLatex) :=
  ⟨fun P ts us s => generalStatsFrom_append P ts us s,
   fun P ts us s => latexStatsFrom_append P ts us s,
   fun P ts => ⟨generalStatsFrom_filter P ts zeroGeneral,
                latexStatsFrom_filter P ts zeroLatex⟩,
   fun P n => ⟨generalStatsFrom_replicate_none P n zeroGeneral,
               latexStatsFrom_replicate_none P n zeroLatex⟩⟩

/-! ## Helper lemmas: the boundary-locating loop -/

lemma handle_getD (last : Option BoundaryKind) (k : BoundaryKind) :
    (if last = some k then last else some k).getD k = k := by
  split <;> simp_all

lemma locBoundLoop_spec (E : BreakEngine) :
    ∀ (l : List (Option (List Char) × Option String)) (last : Option BoundaryKind),
    locBoundLoop E last l =
      if l.any badElem then .error .invalidArgument
      else .ok (l.map (locBoundElem E)) := by
  intro l
  induction l with
  | nil => intro last; rfl
  | cons x rest ih =>
    intro last
    obtain ⟨t?, lab?⟩ := x
    match t?, lab? with
    | none, _ =>
      simp only [locBoundLoop, List.any_cons, List.map_cons, badElem, locBoundElem,
        Bool.false_or, ih]
      by_cases hr : rest.any badElem = true <;> simp [hr, Except.map]
    | some t, none =>
      simp only [locBoundLoop, List.any_cons, List.map_cons, badElem, locBoundElem,
        Bool.false_or, ih]
      by_cases hr : rest.any badElem = true <;> simp [hr, Except.map]
    | some t, some lab =>
      by_cases ht : t = []
      · subst ht
        simp only [locBoundLoop, List.any_cons, List.map_cons, badElem, locBoundElem,
          ih]
        by_cases hr : rest.any badElem = true <;> simp [hr, Except.map]
      · cases hm : stri__match_arg lab with
        | none =>
          simp only [locBoundLoop, List.any_cons, badElem, hm]
          rw [if_neg ht]
          simp [ht, List.isEmpty_iff, hm]
        | some k =>
          simp only [locBoundLoop, List.any_cons, List.map_cons, badElem,
            locBoundElem, hm]
          rw [if_neg ht, if_neg ht]
          simp only [handle_getD, ih]
          by_cases hr : rest.any badElem = true <;>
            simp [hr, ht, List.isEmpty_iff, hm, Except.map]

/-- Claim C3 (amended): a locate-boundaries call fails — always with
`InvalidArgument` — exactly when some recycled element pairs an unrecognized
label with a non-NA, non-empty text; the check runs per element as it is
reached, not before any element is processed, so an invalid label paired only
with NA or empty texts never fails (see the counterexample). -/
theorem c3_invalid_label_per_element (E : BreakEngine)
    (texts : List (Option (List Char))) (labels : List (Option String))
    (e : StriError) :
    stri_locate_boundaries E texts labels = .error e ↔
      (e = .invalidArgument ∧
       (recycledElems texts labels).any badElem = true) := by
  rw [stri_locate_boundaries, locBoundLoop_spec]
  by_cases h : (recycledElems texts labels).any badElem = true
  · simp [h, eq_comm]
  · simp [h]

/-- Claim C3, witness for the amended equivalence: the batch
`(["ab"], ["bogus"])` pairs the invalid label with a real text and fails. -/
theorem c3_invalid_label_per_element_witness :
    stri_locate_boundaries demoEngine [some ['a', 'b']] [some "bogus"] =
      .error .invalidArgument ↔
    (StriError.invalidArgument = .invalidArgument ∧
     (recycledElems [some ['a', 'b']] [some "bogus"]).any badElem = true) :=
  c3_invalid_label_per_element demoEngine [some ['a', 'b']] [some "bogus"]
    .invalidArgument

/-- Claim C3, counterexample: the label `"bogus"` is not one of the four
accepted labels, yet the call succeeds, because its only pairing is with an
NA text — the label check is per element, not performed up front. -/
theorem c3_invalid_label_with_na_text_succeeds :
    stri__match_arg "bogus" = none ∧
    stri_locate_boundaries demoEngine [none] [some "bogus"] = .ok [none] := by
  constructor <;> rfl

/-- Claim C5: an element whose text is NA, whose boundary label is NA, or
whose text has zero length yields the single NA sentinel row — independently
of any engine state, hence without invoking the engine — and the loop
continues with the remaining elements. -/
theorem c5_na_short_circuit (E : BreakEngine) (last : Option BoundaryKind)
    (t? : Option (List Char)) (lab? : Option String)
    (rest : List (Option (List Char) × Option String))
    (h : t? = none ∨ lab? = none ∨ t? = some []) :
    locBoundLoop E last ((t?, lab?) :: rest) =
      (locBoundLoop E last rest).map (fun rs => none :: rs) := by
  rcases h with h | h | h
  · subst h; rfl
  · subst h
    match t? with
    | none => rfl
    | some t => rfl
  · subst h
    match lab? with
    | none => rfl
    | some lab => simp [locBoundLoop]

/-- Claim C5, witness: an NA text paired with a valid label gives the NA row
and processing continues to the following element. -/
theorem c5_na_short_circuit_witness :
    ((none : Option (List Char)) = none ∨ (some "word" : Option String) = none ∨
      (none : Option (List Char)) = some []) ∧
    locBoundLoop demoEngine none
        [((none : Option (List Char)), some "word"), (some ['a'], some "word")] =
      (locBoundLoop demoEngine none [(some ['a'], some "word")]).map
        (fun rs => none :: rs) :=
  ⟨Or.inl rfl,
   c5_na_short_circuit demoEngine none none (some "word")
     [(some ['a'], some "word")] (Or.inl rfl)⟩

lemma recycledElems_get (texts : List (Option (List Char)))
    (labels : List (Option String)) (i : Nat) (x : Option (List Char) × Option String)
    (hx : (recycledElems texts labels).get? i = some x) :
    x = (getCyc texts i, getCyc labels i) := by
  rw [recycledElems, List.get?_map] at hx
  cases hr : (List.range (stri__recycling_rule texts.length labels.length)).get? i with
  | none => rw [hr] at hx; cases hx
  | some j =>
    have hlt : i < stri__recycling_rule texts.length labels.length := by
      by_contra hge
      rw [List.get?_eq_none.mpr (by simpa [List.length_range] using hge)] at hr
      cases hr
    rw [List.get?_range hlt] at hx
    exact (Option.some.inj hx).symm

/-- Claim C8: BreakIterator-instance reuse is transparent — whenever a batch
call succeeds, each row of its result equals the result of an independent
single-element call on that element's recycled text and label. -/
theorem c8_reuse_transparent (E : BreakEngine)
    (texts : List (Option (List Char))) (labels : List (Option String))
    (rs : List LocateRow) (i : Nat) (r : LocateRow)
    (hok : stri_locate_boundaries E texts labels = .ok rs)
    (hget : rs.get? i = some r) :
    stri_locate_boundaries E [getCyc texts i] [getCyc labels i] = .ok [r] := by
  rw [stri_locate_boundaries, locBoundLoop_spec] at hok
  by_cases hany : (recycledElems texts labels).any badElem = true
  · rw [if_pos hany] at hok; cases hok
  · rw [if_neg hany] at hok
    have hrs : (recycledElems texts labels).map (locBoundElem E) = rs :=
      Except.ok.inj hok
    rw [← hrs, List.get?_map] at hget
    cases hx : (recycledElems texts labels).get? i with
    | none => rw [hx] at hget; cases hget
    | some x =>
      rw [hx] at hget
      have hr : locBoundElem E x = r := Option.some.inj hget
      have hxval := recycledElems_get texts labels i x hx
      have hbad : badElem x = false := by
        have hf : (recycledElems texts labels).any badElem = false :=
          Bool.eq_false_iff.mpr hany
        have := List.any_eq_false.mp hf x (List.get?_mem hx)
        simpa using this
      have hsingle : recycledElems [getCyc texts i] [getCyc labels i] = [x] := by
        rw [hxval]; rfl
      rw [stri_locate_boundaries, locBoundLoop_spec, hsingle]
      simp [hbad, hr]

/-- Claim C8, witness: a two-element batch with kinds `[word, sentence]`
matches the independent single-element call on its second element. -/
theorem c8_reuse_transparent_witness :
    stri_locate_boundaries demoEngine [some ['a'], some ['b']]
        [some "word", some "sentence"] =
      .ok [some [(1, 2)], some [(1, 2)]] ∧
    stri_locate_boundaries demoEngine [some ['b']] [some "sentence"] =
      .ok [some [(1, 2)]] :=
  ⟨rfl,
   c8_reuse_transparent demoEngine [some ['a'], some ['b']]
     [some "word", some "sentence"] [some [(1, 2)], some [(1, 2)]] 1
     (some [(1, 2)]) rfl rfl⟩

/-! ## Helper lemmas: interval chains -/

lemma allChain_chain (l : List (Nat × Int)) :
    ∀ x, List.Chain' (fun a b => b.1 = a.2) (allChain x l) := by
  induction l with
  | nil => intro x; simp [allChain]
  | cons y rest ih =>
    intro x
    obtain ⟨m, st⟩ := y
    cases rest with
    | nil => simp [allChain]
    | cons y2 r2 =>
      obtain ⟨m2, st2⟩ := y2
      rw [allChain, allChain]
      exact List.chain'_cons.mpr ⟨rfl, by simpa [allChain] using ih m⟩

lemma allChain_le (l : List (Nat × Int)) :
    ∀ x, List.Chain' (· ≤ ·) (x :: l.map Prod.fst) →
    ∀ p ∈ allChain x l, p.1 ≤ p.2 := by
  induction l with
  | nil => intro x _ p hp; exact absurd hp (List.not_mem_nil _)
  | cons y rest ih =>
    intro x hc p hp
    obtain ⟨m, st⟩ := y
    rw [List.map_cons, List.chain'_cons] at hc
    rcases List.mem_cons.mp hp with h | h
    · subst h; exact hc.1
    · exact ih m hc.2 p h

lemma allChain_head (l : List (Nat × Int)) (x : Nat) (p : Nat × Nat)
    (h : (allChain x l).head? = some p) : p.1 = x := by
  cases l with
  | nil => cases h
  | cons y rest =>
    obtain ⟨m, st⟩ := y
    rw [allChain] at h
    cases Option.some.inj h
    rfl

lemma chain_pairwise (ivs : List (Nat × Nat))
    (hc : List.Chain' (fun a b => b.1 = a.2) ivs)
    (hle : ∀ p ∈ ivs, p.1 ≤ p.2) :
    List.Pairwise (fun a b => a.2 ≤ b.1) ivs := by
  induction ivs with
  | nil => exact List.Pairwise.nil
  | cons p rest ih =>
    have hrest := ih hc.tail (fun q hq => hle q (List.mem_cons_of_mem _ hq))
    refine List.pairwise_cons.mpr ⟨?_, hrest⟩
    intro q hq
    cases rest with
    | nil => exact absurd hq (List.not_mem_nil _)
    | cons q0 r2 =>
      have h01 : q0.1 = p.2 := (List.chain'_cons.mp hc).1
      rcases List.mem_cons.mp hq with h | h
      · subst h; exact le_of_eq h01.symm
      · have h2 := (List.pairwise_cons.mp hrest).1 q h
        have h3 : q0.1 ≤ q0.2 := hle q0 (List.mem_cons_of_mem _ (List.mem_cons_self _ _))
        omega

lemma toCodepointIndex_mono (t : List Char) {a b : Nat} (h : a ≤ b) :
    toCodepointIndex t a ≤ toCodepointIndex t b := by
  have hcount : (cpByteOffsets t).countP (fun o => decide (o < a)) ≤
      (cpByteOffsets t).countP (fun o => decide (o < b)) := by
    refine List.countP_mono_left ?_
    intro o _ ho
    simp only [decide_eq_true_iff] at ho ⊢
    omega
  unfold toCodepointIndex
  omega

lemma adjustIvs_chain (t : List Char) (ivs : List (Nat × Nat))
    (hc : List.Chain' (fun a b => b.1 = a.2) ivs) :
    List.Chain' (fun a b => b.1 = a.2) (adjustIvs t ivs) := by
  rw [adjustIvs, List.chain'_map]
  exact hc.imp (fun a b h => by rw [h])

lemma adjustIvs_le (t : List Char) (ivs : List (Nat × Nat))
    (hle : ∀ p ∈ ivs, p.1 ≤ p.2) :
    ∀ p ∈ adjustIvs t ivs, p.1 ≤ p.2 := by
  intro p hp
  rw [adjustIvs, List.mem_map] at hp
  obtain ⟨q, hq, rfl⟩ := hp
  exact toCodepointIndex_mono t (hle q hq)

lemma adjustIvs_head (t : List Char) (ivs : List (Nat × Nat)) (p : Nat × Nat)
    (h : (adjustIvs t ivs).head? = some p) :
    ∃ q, ivs.head? = some q ∧ p.1 = toCodepointIndex t q.1 := by
  cases ivs with
  | nil => cases h
  | cons q rest =>
    rw [adjustIvs, List.map_cons] at h
    cases Option.some.inj h
    exact ⟨q, rfl, rfl⟩

lemma locBoundElem_some (E : BreakEngine)
    (x : Option (List Char) × Option String) (ivs : List (Nat × Nat))
    (h : locBoundElem E x = some ivs) :
    ∃ t lab k, x = (some t, some lab) ∧ t ≠ [] ∧
      stri__match_arg lab = some k ∧
      ivs = adjustIvs t (allChain (E.first k t) (E.nexts k t)) := by
  obtain ⟨t?, lab?⟩ := x
  match t?, lab? with
  | none, _ => cases h
  | some t, none => cases h
  | some t, some lab =>
    rw [locBoundElem] at h
    by_cases ht : t = []
    · rw [if_pos ht] at h; cases h
    · rw [if_neg ht] at h
      cases hm : stri__match_arg lab with
      | none => rw [hm] at h; cases h
      | some k =>
        rw [hm] at h
        exact ⟨t, lab, k, rfl, ht, hm, (Option.some.inj h).symm⟩

/-- Claim C10: whenever a batch boundary call succeeds and the engine's
boundary sequence for each kind and text is nondecreasing (ICU returns
boundaries in ascending order), every non-NA row is a contiguous chain in
codepoint coordinates — its first interval starts at the engine's (adjusted)
first boundary and each interval's start equals the previous interval's end —
hence it is ordered by interval start and non-overlapping. -/
theorem c10_rows_are_contiguous_chains (E : BreakEngine)
    (texts : List (Option (List Char))) (labels : List (Option String))
    (rs : List LocateRow) (i : Nat) (ivs : List (Nat × Nat))
    (hmono : ∀ k t, List.Chain' (· ≤ ·)
      (E.first k t :: (E.nexts k t).map Prod.fst))
    (hok : stri_locate_boundaries E texts labels = .ok rs)
    (hget : rs.get? i = some (some ivs)) :
    List.Chain' (fun a b => b.1 = a.2) ivs ∧
    (∀ p ∈ ivs, p.1 ≤ p.2) ∧
    List.Pairwise (fun a b => a.1 ≤ b.1 ∧ a.2 ≤ b.1) ivs ∧
    (∃ t lab k, getCyc texts i = some t ∧ getCyc labels i = some lab ∧
      stri__match_arg lab = some k ∧
      (∀ p, ivs.head? = some p → p.1 = toCodepointIndex t (E.first k t))) := by
  rw [stri_locate_boundaries, locBoundLoop_spec] at hok
  by_cases hany : (recycledElems texts labels).any badElem = true
  · rw [if_pos hany] at hok; cases hok
  · rw [if_neg hany] at hok
    have hrs : (recycledElems texts labels).map (locBoundElem E) = rs :=
      Except.ok.inj hok
    rw [← hrs, List.get?_map] at hget
    cases hx : (recycledElems texts labels).get? i with
    | none => rw [hx] at hget; cases hget
    | some x =>
      rw [hx] at hget
      obtain ⟨t, lab, k, hxeq, ht, hm, hivs⟩ :=
        locBoundElem_some E x ivs (Option.some.inj hget)
      have hxval := recycledElems_get texts labels i x hx
      have hchain0 := allChain_chain (E.nexts k t) (E.first k t)
      have hle0 := allChain_le (E.nexts k t) (E.first k t) (hmono k t)
      have hchain : List.Chain' (fun a b => b.1 = a.2) ivs := by
        rw [hivs]; exact adjustIvs_chain t _ hchain0
      have hle : ∀ p ∈ ivs, p.1 ≤ p.2 := by
        rw [hivs]; exact adjustIvs_le t _ hle0
      refine ⟨hchain, hle, ?_, ?_⟩
      · refine (chain_pairwise ivs hchain hle).imp_of_mem ?_
        intro a b ha _ hab
        exact ⟨le_trans (hle a ha) hab, hab⟩
      · refine ⟨t, lab, k, ?_, ?_, hm, ?_⟩
        · rw [hxeq] at hxval
          exact (congrArg Prod.fst hxval).symm
        · rw [hxeq] at hxval
          exact (congrArg Prod.snd hxval).symm
        · intro p hp
          rw [hivs] at hp
          obtain ⟨q, hq, hpq⟩ := adjustIvs_head t _ p hp
          rw [hpq, allChain_head _ _ _ hq]

lemma demoBreaks_chain (t : List Char) :
    ∀ x, List.Chain' (· ≤ ·) (x :: (demoBreaks x t).map Prod.fst) := by
  induction t with
  | nil => intro x; simp [demoBreaks]
  | cons c rest ih =>
    intro x
    rw [demoBreaks, List.map_cons, List.chain'_cons]
    exact ⟨Nat.le_add_right x (utf8Len c), ih (x + utf8Len c)⟩

/-- Claim C10, witness at a concrete two-codepoint text. -/
theorem c10_rows_are_contiguous_chains_witness :
    (∀ (k : BoundaryKind) (t : List Char), List.Chain' (· ≤ ·)
      (demoEngine.first k t :: (demoEngine.nexts k t).map Prod.fst)) ∧
    (stri_locate_boundaries demoEngine [some ['a', 'b']] [some "word"] =
      .ok [some [(1, 2), (2, 3)]]) ∧
    (([some [(1, 2), (2, 3)]] : List LocateRow).get? 0 =
      some (some [(1, 2), (2, 3)])) ∧
    (List.Chain' (fun a b => b.1 = a.2) [((1 : Nat), (2 : Nat)), (2, 3)] ∧
     (∀ p ∈ [((1 : Nat), (2 : Nat)), (2, 3)], p.1 ≤ p.2) ∧
     List.Pairwise (fun a b => a.1 ≤ b.1 ∧ a.2 ≤ b.1)
       [((1 : Nat), (2 : Nat)), (2, 3)] ∧
     (∃ t lab k, getCyc [some ['a', 'b']] 0 = some t ∧
       getCyc [some "word"] 0 = some lab ∧
       stri__match_arg lab = some k ∧
       (∀ p, ([((1 : Nat), (2 : Nat)), (2, 3)]).head? = some p →
         p.1 = toCodepointIndex t (demoEngine.first k t)))) :=
  ⟨fun _ t => demoBreaks_chain t 0, rfl, rfl,
   c10_rows_are_contiguous_chains demoEngine [some ['a', 'b']] [some "word"]
     [some [(1, 2), (2, 3)]] 0 [(1, 2), (2, 3)]
     (fun _ t => demoBreaks_chain t 0) rfl rfl⟩

lemma wordChain_eq_filter (l : List (Nat × Int)) :
    ∀ x, wordChain x l =
      ((chainPairs x l).filter (fun y => decide (y.2 ≠ UBRK_WORD_NONE))).map
        Prod.fst := by
  induction l with
  | nil => intro x; rfl
  | cons y rest ih =>
    intro x
    obtain ⟨m, st⟩ := y
    by_cases hst : st ≠ UBRK_WORD_NONE
    · simp [wordChain, chainPairs, List.filter, hst, ih m]
    · simp [wordChain, chainPairs, List.filter, hst, ih m]

/-- Claim C4: for a non-NA element of `stri_locate_words`, the produced row
consists exactly of the candidate consecutive-boundary intervals whose rule
classification differs from `UBRK_WORD_NONE` (all "no word" candidates are
excluded), and when no candidate survives the row is the NA sentinel, never
an empty interval matrix. -/
theorem c4_word_filter_and_na (E : BreakEngine)
    (texts : List (Option (List Char))) (i : Nat) (t : List Char)
    (h : texts.get? i = some (some t)) :
    ((stri_locate_words E texts).get? i =
      some (if ((chainPairs (E.first .word t) (E.nexts .word t)).filter
              (fun y => decide (y.2 ≠ UBRK_WORD_NONE))).map Prod.fst = []
            then none
            else some (adjustIvs t
              (((chainPairs (E.first .word t) (E.nexts .word t)).filter
                (fun y => decide (y.2 ≠ UBRK_WORD_NONE))).map Prod.fst)))) ∧
    (stri_locate_words E texts).get? i ≠ some (some []) := by
  have hrow : (stri_locate_words E texts).get? i =
      some (let occ := wordChain (E.first .word t) (E.nexts .word t)
            if occ = [] then none else some (adjustIvs t occ)) := by
    rw [stri_locate_words, List.get?_map, h]; rfl
  rw [wordChain_eq_filter] at hrow
  constructor
  · exact hrow
  · rw [hrow]
    intro hcon
    have := Option.some.inj hcon
    by_cases hocc : ((chainPairs (E.first .word t) (E.nexts .word t)).filter
        (fun y => decide (y.2 ≠ UBRK_WORD_NONE))).map Prod.fst = []
    · rw [if_pos hocc] at this; cases this
    · rw [if_neg hocc] at this
      have hempty := Option.some.inj this
      rw [adjustIvs] at hempty
      exact hocc (List.map_eq_nil.mp hempty)

/-- Claim C4, witness: one-codepoint text with a surviving word interval. -/
theorem c4_word_filter_and_na_witness :
    ([some ['a']] : List (Option (List Char))).get? 0 = some (some ['a']) ∧
    ((stri_locate_words demoEngine [some ['a']]).get? 0 =
      some (if ((chainPairs (demoEngine.first .word ['a'])
              (demoEngine.nexts .word ['a'])).filter
              (fun y => decide (y.2 ≠ UBRK_WORD_NONE))).map Prod.fst = []
            then none
            else some (adjustIvs ['a']
              (((chainPairs (demoEngine.first .word ['a'])
                (demoEngine.nexts .word ['a'])).filter
                (fun y => decide (y.2 ≠ UBRK_WORD_NONE))).map Prod.fst)))) ∧
    (stri_locate_words demoEngine [some ['a']]).get? 0 ≠ some (some []) :=
  ⟨rfl,
   c4_word_filter_and_na demoEngine [some ['a']] 0 ['a'] rfl⟩
